import Mathlib

/-!
Verification of `src/tools/prepare_epubs.py`: a shallow embedding of the
text-length counting state machine (`count_chapter_length`), the metrics
table generation and its binary serialization (`generate_metrics`), the
archive transform (`process_epub`) and the per-book orchestration
(`process_single_epub`), together with theorems settling the frozen claims.

Bytes are modelled as `Nat` (each element of a Python `bytes` is in
`0..255`); strings as Lean `String`; the filesystem as partial maps
`String → Option _`.
-/

set_option maxRecDepth 40000

namespace EpubPrep

/-! ## UTF-8 decoding with ignored errors

`current_tag.decode('utf-8', errors='ignore')` in the source: a decoder
that turns a byte list into a codepoint list, skipping bytes that do not
start a valid UTF-8 sequence.  CPython skips an invalid sequence as one
error range consisting of the lead byte and its valid continuation bytes;
here an invalid lead byte is skipped one byte at a time, which produces the
same codepoint list because lone continuation bytes decode to nothing. -/

/-- Lower bound for the second byte of a 3- or 4-byte sequence (CPython
rejects overlong encodings and surrogates via these ranges). -/
def u8lo (b : Nat) : Nat := if b = 224 then 160 else if b = 240 then 144 else 128

/-- Upper bound for the second byte of a 3- or 4-byte sequence. -/
def u8hi (b : Nat) : Nat := if b = 237 then 159 else if b = 244 then 143 else 191

/-- Fuel-indexed worker for the decoder; each step consumes at least one
byte and one unit of fuel, so fuel equal to the byte count never runs out. -/
def utf8DecodeFuel : Nat → List Nat → List Nat
  | 0, _ => []
  | _ + 1, [] => []
  | fuel + 1, b :: rest =>
    if b ≤ 127 then b :: utf8DecodeFuel fuel rest
    else if 194 ≤ b ∧ b ≤ 223 then
      match rest with
      | b2 :: rest2 =>
        if 128 ≤ b2 ∧ b2 ≤ 191 then
          ((b - 192) * 64 + (b2 - 128)) :: utf8DecodeFuel fuel rest2
        else utf8DecodeFuel fuel rest
      | [] => []
    else if 224 ≤ b ∧ b ≤ 239 then
      match rest with
      | b2 :: b3 :: rest3 =>
        if (u8lo b ≤ b2 ∧ b2 ≤ u8hi b) ∧ (128 ≤ b3 ∧ b3 ≤ 191) then
          ((b - 224) * 4096 + (b2 - 128) * 64 + (b3 - 128)) :: utf8DecodeFuel fuel rest3
        else utf8DecodeFuel fuel rest
      | _ => utf8DecodeFuel fuel rest
    else if 240 ≤ b ∧ b ≤ 244 then
      match rest with
      | b2 :: b3 :: b4 :: rest4 =>
        if (u8lo b ≤ b2 ∧ b2 ≤ u8hi b) ∧ (128 ≤ b3 ∧ b3 ≤ 191) ∧ (128 ≤ b4 ∧ b4 ≤ 191) then
          ((b - 240) * 262144 + (b2 - 128) * 4096 + (b3 - 128) * 64 + (b4 - 128))
            :: utf8DecodeFuel fuel rest4
        else utf8DecodeFuel fuel rest
      | _ => utf8DecodeFuel fuel rest
    else utf8DecodeFuel fuel rest

/-- Python `bytes.decode('utf-8', errors='ignore')`, as a codepoint list. -/
def utf8DecodeIgnore (bs : List Nat) : List Nat := utf8DecodeFuel bs.length bs

/-- Python `str.lower()`, restricted to the ASCII range.  The tag classifier only
compares against pure-ASCII strings, and no non-ASCII codepoint lowercases
to a single ASCII letter in a way that could produce one of the tested
patterns, so this agrees with Python's Unicode lowering on every
classification outcome. -/
def asciiLower (cps : List Nat) : List Nat :=
  cps.map (fun c => if 65 ≤ c ∧ c ≤ 90 then c + 32 else c)

/-- Codepoints of an ASCII string literal. -/
def asc (s : String) : List Nat := s.data.map Char.toNat

/-- The accumulated tag text `current_tag.decode('utf-8', errors='ignore').lower()`. -/
def tagToStr (bs : List Nat) : List Nat := asciiLower (utf8DecodeIgnore bs)

/-- The `is_block` classification of a closed tag (source lines 47-52). -/
def isBlockTag (t : List Nat) : Bool :=
  (t == asc "p" || t == asc "/p" || (asc "p ").isPrefixOf t || (asc "/p ").isPrefixOf t)
  || (t == asc "div" || t == asc "/div" || (asc "div ").isPrefixOf t || (asc "/div ").isPrefixOf t)
  || (t == asc "br" || t == asc "br/" || (asc "br ").isPrefixOf t)
  || (t == asc "li" || t == asc "/li")
  || (match t with
      | a :: b :: _ => a == 104 || (a == 47 && b == 104)
      | _ => false)

/-- The `img` classification of a closed tag (source line 58). -/
def isImgTag (t : List Nat) : Bool := t == asc "img" || (asc "img ").isPrefixOf t

/-! ## The counting state machine (`count_chapter_length`, lines 18-80) -/

/-- The mutable state of the scan loop: `length`, `in_tag`, `last_space`,
`current_tag`. -/
structure CountState where
  length : Nat
  in_tag : Bool
  last_space : Bool
  current_tag : List Nat
deriving DecidableEq, Repr

/-- Initial state: `length = 0`, `in_tag = False`, `last_space = True`. -/
def initCount : CountState := ⟨0, false, true, []⟩

/-- One iteration of the `while i < n` loop on byte `c`. -/
def countStep (s : CountState) (c : Nat) : CountState :=
  if c = 60 then { s with in_tag := true, current_tag := [] }
  else if s.in_tag then
    if c = 62 then
      let t := tagToStr s.current_tag
      if isBlockTag t then
        if s.last_space then { s with in_tag := false }
        else { s with in_tag := false, length := s.length + 1, last_space := true }
      else if isImgTag t then
        { s with in_tag := false, length := s.length + 7, last_space := false }
      else { s with in_tag := false }
    else { s with current_tag := s.current_tag ++ [c] }
  else
    let c2 := if c = 10 ∨ c = 13 then 32 else c
    if c2 = 32 then
      if s.last_space then s
      else { s with length := s.length + 1, last_space := true }
    else { s with length := s.length + 1, last_space := false }

/-- The function `count_chapter_length(data)`: run the scan over all bytes and return the
accumulated length. -/
def count_chapter_length (data : List Nat) : Nat :=
  (data.foldl countStep initCount).length

/-! ## Spine resolution and the chapter-offset table (`generate_metrics`,
lines 116-154) -/

/-- Resolution `full_path = href`, prefixed with `opf_dir + "/"` when `opf_dir` is
non-empty, with backslashes replaced by forward slashes (lines 138-141). -/
def resolvePath (opf_dir href : String) : String :=
  String.mk (((if opf_dir = "" then href else opf_dir ++ "/" ++ href)).data.map
    (fun ch => if ch = '\\' then '/' else ch))

/-- The resolved spine: each `idref` with a manifest entry contributes the
resolved path of its href; an `idref` absent from the manifest is skipped
(`continue`, line 134).  The manifest is the id→href mapping extracted from
the OPF `item` elements. -/
def resolvedSpine (manifest : String → Option String) (opf_dir : String)
    (spine_refs : List String) : List String :=
  spine_refs.filterMap (fun idref => (manifest idref).map (resolvePath opf_dir))

/-- The body of the `for idref in spine_refs` loop (lines 132-154), over the
already-resolved paths.  `read p = none` models both `KeyError` (missing
chapter file) and any other read error: the cumulative value is appended
unchanged.  Returns the offsets appended after the initial `0`, paired with
the final `cumulative_length`. -/
def metricsLoop (read : String → Option (List Nat)) : Nat → List String → List Nat × Nat
  | cum, [] => ([], cum)
  | cum, p :: ps =>
    match read p with
    | some content =>
      let cum2 := cum + count_chapter_length content
      let r := metricsLoop read cum2 ps
      (cum2 :: r.1, r.2)
    | none =>
      let r := metricsLoop read cum ps
      (cum :: r.1, r.2)

/-- The list `chapter_offsets` after the loop: the explicit initial `0` (line 128)
followed by one cumulative value per resolved spine entry. -/
def chapter_offsets (read : String → Option (List Nat)) (paths : List String) : List Nat :=
  0 :: (metricsLoop read 0 paths).1

/-- The value `cumulative_length` after the loop. -/
def cumulative_length (read : String → Option (List Nat)) (paths : List String) : Nat :=
  (metricsLoop read 0 paths).2

/-! ## Binary serialization of the metrics file (lines 170-181) -/

/-- Python `struct.pack("<I", n)`: four little-endian bytes. -/
def le32 (n : Nat) : List Nat :=
  [n % 256, n / 256 % 256, n / 65536 % 256, n / 16777216 % 256]

/-- The bytes written to `m_<stem>.bin`: version byte `1`, then
`cumulative_length`, then `len(chapter_offsets)`, then every offset, each
packed as `<I` (lines 170-179). -/
def metricsFile (read : String → Option (List Nat)) (paths : List String) : List Nat :=
  1 :: (le32 (cumulative_length read paths)
    ++ le32 (chapter_offsets read paths).length
    ++ ((chapter_offsets read paths).map le32).flatten)

/-! Decoder for the metrics wire format as the spec states it (§4.4):
one version byte `1`, a 4-byte little-endian unsigned total, a 4-byte
little-endian unsigned entry count, then that many 4-byte little-endian
unsigned offsets, and nothing after them.  Used to check the serializer
against the stated layout. -/

/-- Read one 4-byte little-endian unsigned integer. -/
def readLE32 : List Nat → Option (Nat × List Nat)
  | b0 :: b1 :: b2 :: b3 :: rest => some (b0 + 256 * b1 + 65536 * b2 + 16777216 * b3, rest)
  | _ => none

/-- Read `k` consecutive 4-byte little-endian unsigned integers. -/
def readN32 : Nat → List Nat → Option (List Nat × List Nat)
  | 0, bs => some ([], bs)
  | k + 1, bs =>
    match readLE32 bs with
    | some (v, rest) =>
      match readN32 k rest with
      | some (vs, rest2) => some (v :: vs, rest2)
      | none => none
    | none => none

/-- Parse a metrics file per the spec layout; `none` on any shape violation. -/
def parseMetrics (bs : List Nat) : Option (Nat × Nat × List Nat) :=
  match bs with
  | v :: rest =>
    if v = 1 then
      (readLE32 rest).bind (fun tr =>
        (readLE32 tr.2).bind (fun cr =>
          (readN32 cr.1 cr.2).bind (fun onr =>
            if onr.2 = [] then some (tr.1, cr.1, onr.1) else none)))
    else none
  | [] => none

/-! ## The archive transform (`process_epub`, lines 392-525) -/

/-- ASCII `str.lower()` on one character (extensions compared below are
pure ASCII, so this agrees with Python on every comparison outcome). -/
def asciiLowerChar (c : Char) : Char :=
  if 'A' ≤ c ∧ c ≤ 'Z' then Char.ofNat (c.toNat + 32) else c

/-- The extension part of `os.path.splitext` on the reversed basename:
the last dot of the basename starts the extension, provided some non-dot
character of the basename precedes it (POSIX rules). -/
def splitextRev (base_rev : List Char) : List Char :=
  match base_rev.span (fun c => c ≠ '.') with
  | (_, []) => []
  | (ext_rev, _ :: before) =>
    if before.any (fun c => c ≠ '.') then '.' :: ext_rev.reverse else []

/-- Python `os.path.splitext(name)[1].lower()` (lines 424, 442). -/
def extOf (name : String) : String :=
  String.mk ((splitextRev ((name.data.reverse).takeWhile (fun c => c ≠ '/'))).map
    asciiLowerChar)

/-- Python `name.endswith(suffix)` (line 489). -/
def endsWithStr (sfx name : String) : Bool :=
  sfx.data.reverse.isPrefixOf name.data.reverse

/-- The set `FONT_EXTS` (lines 398-400). -/
def font_exts : List String := [".ttf", ".otf", ".woff", ".woff2", ".eot"]

/-- The set `IMAGE_EXTS` (lines 393-396). -/
def image_exts : List String := [".jpg", ".jpeg", ".png", ".gif", ".webp", ".bmp", ".tiff"]

/-- The `--mode` option. -/
inductive Mode where
  | downscale
  | remove
deriving DecidableEq, Repr

/-- One zip entry payload: either raw bytes (any entry whose content
`Image.open` cannot decode, line 485 keeps it unchanged), or a decodable
image abstracted by its pixel dimensions, the only image attribute the
transform inspects (the codec is a collaborator interface). -/
inductive EContent where
  | raw (bs : List Nat)
  | image (w h : Nat)
deriving DecidableEq, Repr

/-- Per-entry compression method, the `compress_type` of a `ZipInfo`.
`zout.writestr(item, content)` with a `ZipInfo` keeps that entry's
original method (the archive-level `ZIP_DEFLATED` default applies only to
string-named writes); the `mimetype` branch overrides it with
`ZIP_STORED` (lines 513-516). -/
inductive Storage where
  | stored
  | deflated
deriving DecidableEq, Repr

/-- One archive entry: name, payload and `compress_type`. -/
structure ZEntry where
  filename : String
  content : EContent
  storage : Storage
deriving DecidableEq, Repr

/-- Membership in `files_to_remove` (lines 441-449): font extensions
always, image extensions when `mode == 'remove'`. -/
def toRemove (mode : Mode) (name : String) : Bool :=
  font_exts.contains (extOf name) || (mode == Mode.remove && image_exts.contains (extOf name))

/-- The image downscaling step (lines 463-486): a decodable image with a
dimension exceeding 960×540 is resized by the uniform rational factor
`ratio = min(960/w, 540/h)` to `(int(w*ratio), int(h*ratio))`; the whole
step runs in one `try`, and on any exception the entry is kept unchanged
(line 485).  Two inputs make it raise: a zero dimension
(`ZeroDivisionError` in the ratio), and a target dimension that truncates
to zero (e.g. 1920×1 → `resize((960, 0))`), where the resize/re-encode
rejects the empty size.  Within-bounds images and undecodable payloads
are kept.  Python evaluates the ratio in floating point; it is modelled
exactly over `ℚ`, with which the truncated results agree at these
magnitudes. -/
def downscaleContent : EContent → EContent
  | EContent.raw bs => EContent.raw bs
  | EContent.image w h =>
    if 960 < w ∨ 540 < h then
      if w = 0 ∨ h = 0 then EContent.image w h
      else
        if Int.toNat ⌊(w : ℚ) * min ((960 : ℚ) / w) ((540 : ℚ) / h)⌋ = 0
            ∨ Int.toNat ⌊(h : ℚ) * min ((960 : ℚ) / w) ((540 : ℚ) / h)⌋ = 0 then
          EContent.image w h
        else
          EContent.image (Int.toNat ⌊(w : ℚ) * min ((960 : ℚ) / w) ((540 : ℚ) / h)⌋)
            (Int.toNat ⌊(h : ℚ) * min ((960 : ℚ) / w) ((540 : ℚ) / h)⌋)
    else EContent.image w h

/-- The OPF manifest pruning applied to `.opf` entries (lines 489-511).
`pruneF` abstracts the decode/line-filter/re-encode pipeline acting on the
raw bytes (including the keep-on-`UnicodeDecodeError` case); it is
universally quantified in the theorems.  Content abstracted as an image is
returned unchanged: pruning rewrites bytes, it never produces pixels. -/
def pruneOpf (pruneF : List Nat → List Nat) : EContent → EContent
  | EContent.raw bs => EContent.raw (pruneF bs)
  | EContent.image w h => EContent.image w h

/-- The per-entry body of the copy loop (lines 456-516).  The filename is
never changed; `mimetype` is written stored, every other entry is written
through its own `ZipInfo` and so keeps its original compression method. -/
def processEntry (mode : Mode) (pruneF : List Nat → List Nat) (e : ZEntry) : ZEntry :=
  let c1 := if mode == Mode.downscale && image_exts.contains (extOf e.filename) then
      downscaleContent e.content
    else e.content
  let c2 := if endsWithStr ".opf" e.filename then pruneOpf pruneF c1 else c1
  { filename := e.filename
    content := c2
    storage := if e.filename = "mimetype" then Storage.stored else e.storage }

/-- The whole entry loop: entries in `files_to_remove` are skipped
(line 457), the rest are transformed in order. -/
def processEntries (mode : Mode) (pruneF : List Nat → List Nat)
    (entries : List ZEntry) : List ZEntry :=
  (entries.filter (fun e => !(toRemove mode e.filename))).map (processEntry mode pruneF)

/-- Point update of a filesystem map. -/
def fsWrite {α : Type} (fs : String → Option α) (p : String) (v : α) : String → Option α :=
  fun q => if q = p then some v else fs q

/-- Point removal from a filesystem map. -/
def fsErase {α : Type} (fs : String → Option α) (p : String) : String → Option α :=
  fun q => if q = p then none else fs q

/-- The function `process_epub` as a filesystem transition (lines 426-525).  The zip
files live in `fs`; `rewrite` is the entry loop, with `none` modelling an
exception anywhere during the rewrite (caught at line 522).  Opening a
missing archive raises before the temporary is written; in every failure
branch the `except` clause removes the temporary file if present, and only
the success branch replaces the original via `shutil.move`. -/
def process_epub (fs : String → Option (List ZEntry)) (path : String)
    (rewrite : List ZEntry → Option (List ZEntry)) : String → Option (List ZEntry) :=
  match fs path with
  | none => fsErase fs (path ++ ".tmp")
  | some entries =>
    match rewrite entries with
    | none => fsErase fs (path ++ ".tmp")
    | some out => fsWrite (fsErase fs (path ++ ".tmp")) path out

/-! ## `generate_metrics` as a filesystem transition (lines 82-186) -/

/-- What `generate_metrics` recovers from the archive before the loop: the
chapter reader, the id→href manifest, the spine idref order and the OPF
directory.  `none` at the call site models an archive that cannot be
opened or whose container/OPF cannot be parsed (lines 96-109, 184-186). -/
structure ArchiveM where
  read : String → Option (List Nat)
  manifest : String → Option String
  opf_dir : String
  spine_refs : List String

/-- Result of one `generate_metrics` call: the returned boolean, the
metrics-file store afterwards, and whether the archive was opened. -/
structure GMResult where
  success : Bool
  fs : String → Option (List Nat)
  opened : Bool

/-- The function `generate_metrics` (lines 82-186): an existing metrics file short
circuits to success before the archive is touched (lines 90-92); otherwise
the archive is opened, and on success the serialized table is written at
`metrics_path` (the write is modelled as atomic). -/
def generate_metrics (fs : String → Option (List Nat)) (metrics_path : String)
    (archive : Option ArchiveM) : GMResult :=
  if (fs metrics_path).isSome then { success := true, fs := fs, opened := false }
  else
    match archive with
    | none => { success := false, fs := fs, opened := true }
    | some a =>
      let paths := resolvedSpine a.manifest a.opf_dir a.spine_refs
      { success := true
        fs := fsWrite fs metrics_path (metricsFile a.read paths)
        opened := true }

/-! ## `process_single_epub` (lines 531-553) -/

/-- Python `pathlib.Path(name).stem`: the filename without its suffix, where the
suffix starts at the last dot provided it is neither the first nor the
last character of the name. -/
def pathStem (name : String) : String :=
  match (name.data.reverse).span (fun c => c ≠ '.') with
  | (_, []) => name
  | (sfx_rev, _ :: before) =>
    if sfx_rev ≠ [] ∧ before ≠ [] then String.mk before.reverse else name

/-- The dictionary returned per book (lines 547-553). -/
structure CatalogRecord where
  name : String
  title : String
  author : Option String
  size : Nat
  has_metrics : Nat
deriving Repr

/-- The function `process_single_epub` (lines 531-553).  A non-file path returns `None`;
otherwise the archive transform runs (its exceptions are swallowed inside
`process_epub`), the book may be renamed (`final_name` is the resulting
filename, falling back to the original), metrics generation contributes
only the `has_metrics` flag, and a record is always produced.  `title`,
`author`, `size` are `get_metadata`'s outcome, with the documented
`None`-title fallback to the stem. -/
def process_single_epub (isFile : Bool) (fsZ : String → Option (List ZEntry))
    (fsB : String → Option (List Nat)) (path : String)
    (rewrite : List ZEntry → Option (List ZEntry)) (final_name : String)
    (archive : Option ArchiveM) (title author : Option String) (size : Nat) :
    Option CatalogRecord :=
  if isFile = false then none
  else
    let _fsZ2 := process_epub fsZ path rewrite
    let gm := generate_metrics fsB ("m_" ++ pathStem final_name ++ ".bin") archive
    some
      { name := final_name
        title := title.getD (pathStem final_name)
        author := author
        size := size
        has_metrics := if gm.success then 1 else 0 }

/-! ## Concrete inputs used by witnesses and counterexamples -/

/-- A chapter reader with counted lengths 100 (`ch1`), missing (`ch2`),
50 (`ch3`). -/
def c1read : String → Option (List Nat) := fun p =>
  if p = "ch1" then some (List.replicate 100 97)
  else if p = "ch3" then some (List.replicate 50 97)
  else none

/-- A manifest resolving the ids `id1`, `id2`, `id3` to `ch1`, `ch2`,
`ch3`. -/
def c1manifest : String → Option String := fun i =>
  if i = "id1" then some "ch1"
  else if i = "id2" then some "ch2"
  else if i = "id3" then some "ch3"
  else none

/-- Zip store holding a single archive with no entries at `b.epub`. -/
def emptyZipFs : String → Option (List ZEntry) := fun p =>
  if p = "b.epub" then some [] else none

/-- Entry list exercising every branch of the transform: a stored
`mimetype`, a font, an oversized image, a small image, a 1920×1 image
whose downscale target height truncates to zero, a stored non-image
entry, and a chapter. -/
def sampleEntries : List ZEntry :=
  [ { filename := "mimetype", content := EContent.raw (asc "application/epub+zip"),
      storage := Storage.stored },
    { filename := "OEBPS/fonts/f.ttf", content := EContent.raw [0], storage := Storage.deflated },
    { filename := "OEBPS/img/big.png", content := EContent.image 1920 1080,
      storage := Storage.deflated },
    { filename := "OEBPS/img/small.jpg", content := EContent.image 100 50,
      storage := Storage.deflated },
    { filename := "OEBPS/img/thin.png", content := EContent.image 1920 1,
      storage := Storage.deflated },
    { filename := "OEBPS/raw.dat", content := EContent.raw [1], storage := Storage.stored },
    { filename := "OEBPS/ch1.xhtml", content := EContent.raw (asc "<p>Hi</p>"),
      storage := Storage.deflated } ]

/-- Zip store holding `sampleEntries` at `b.epub`. -/
def sampleFs : String → Option (List ZEntry) := fun p =>
  if p = "b.epub" then some sampleEntries else none

/-- One lexical atom of the whitespace-only input language of the
collapsing property: a space byte, a newline byte, a carriage-return byte,
or a well-formed tag `<...>` whose accumulated name classifies as a block
boundary. -/
def goodAtom (a : List Nat) : Prop :=
  a = [32] ∨ a = [10] ∨ a = [13] ∨
  ∃ ts, a = 60 :: ts ++ [62] ∧ (∀ c ∈ ts, c ≠ 60 ∧ c ≠ 62)
    ∧ isBlockTag (tagToStr ts) = true

/-! # Theorems -/

/-! ## Claim C2: the paragraph-boundary scenario -/

/-- C2 counterexample: `count_chapter_length` of the bytes of
`"<p>Hello</p>\n<p>World</p>"` does not return 11. -/
theorem c2_boundary_count_not_eleven :
    count_chapter_length (asc "<p>Hello</p>\n<p>World</p>") ≠ 11 := by decide

/-- C2 amended: the count is 12 — 5 for `Hello`, one collapsed boundary
space for `</p>`+newline+`<p>`, 5 for `World`, and one more unit emitted by
the final `</p>` because the last emission (`d` of `World`) was not a
space. -/
theorem c2_boundary_count_twelve :
    count_chapter_length (asc "<p>Hello</p>\n<p>World</p>") = 12 := by decide

/-! ## Claim C3: image placeholder cost -/

/-- C3 counterexample: `count_chapter_length` of the bytes of `"<img/>"` is
not 7 — the accumulated tag string is `img/`, which is neither exactly
`img` nor starts with `img `. -/
theorem c3_img_selfclosing_not_seven :
    count_chapter_length (asc "<img/>") ≠ 7 := by decide

/-- C3 amended: an `img` tag carrying attributes costs the flat 7-unit
placeholder and unknown tags cost 0, but the bare self-closing `<img/>`
also costs 0 (only the exact tag `img` or an `img `-prefixed tag matches). -/
theorem c3_img_placeholder_cost :
    count_chapter_length (asc "<img src=\"x.png\"/>") = 7
    ∧ count_chapter_length (asc "<span></span>") = 0
    ∧ count_chapter_length (asc "<img/>") = 0
    ∧ count_chapter_length (asc "<img>") = 7 := by decide

/-! ## Claim C9: totality and malformed-tag truncation -/

/-- While inside a tag, any byte other than `>` leaves the count unchanged
and keeps the scanner inside the tag. -/
lemma countStep_inTag (s : CountState) (c : Nat) (hs : s.in_tag = true) (hc : c ≠ 62) :
    (countStep s c).length = s.length ∧ (countStep s c).in_tag = true := by
  unfold countStep
  by_cases h60 : c = 60 <;> simp [h60, hs, hc]

/-- A tag never closed contributes nothing: folding bytes containing no `>`
from an in-tag state never changes the count. -/
lemma foldl_inTag_length (ys : List Nat) : ∀ s : CountState, s.in_tag = true → 62 ∉ ys →
    (ys.foldl countStep s).length = s.length ∧ (ys.foldl countStep s).in_tag = true := by
  induction ys with
  | nil => exact fun s hs _ => ⟨rfl, hs⟩
  | cons c ys ih =>
    intro s hs hmem
    rw [List.mem_cons, not_or] at hmem
    obtain ⟨hc, hys⟩ := hmem
    have h := countStep_inTag s c hs (Ne.symm hc)
    rw [List.foldl_cons]
    have h2 := ih (countStep s c) h.2 hys
    exact ⟨h2.1.trans h.1, h2.2⟩

/-- C9: `count_chapter_length` is total with a non-negative result on every
byte string, and an unterminated tag at end of input is truncated — the
accumulated tag text after the last unmatched `<` contributes nothing. -/
theorem c9_total_nonneg_truncation :
    (∀ data : List Nat, 0 ≤ count_chapter_length data)
    ∧ ∀ xs ys : List Nat, 62 ∉ ys →
      count_chapter_length (xs ++ 60 :: ys) = count_chapter_length xs := by
  refine ⟨fun data => Nat.zero_le _, fun xs ys hys => ?_⟩
  unfold count_chapter_length
  rw [List.foldl_append, List.foldl_cons]
  have h60 : countStep (xs.foldl countStep initCount) 60
      = { xs.foldl countStep initCount with in_tag := true, current_tag := [] } := by
    simp [countStep]
  rw [h60]
  exact (foldl_inTag_length ys _ rfl hys).1

/-- C9 witness: truncation evaluated on `"H" ++ "<i"` (unterminated tag). -/
theorem c9_truncation_witness :
    count_chapter_length ([72] ++ 60 :: [105]) = count_chapter_length [72] :=
  c9_total_nonneg_truncation.2 [72] [105] (by decide)

/-! ## Claim C4: whitespace collapsing -/

/-- C4 counterexample: two tab bytes count as 2 — tabs are not normalized
to spaces by the scanner (only `\n` and `\r` are), so an input consisting
of tab bytes is not collapsed. -/
theorem c4_tab_bytes_exceed_one : ¬ count_chapter_length [9, 9] ≤ 1 := by decide

/-- Folding the inside of a well-formed tag only accumulates `current_tag`. -/
lemma foldl_tagBody (ts : List Nat) : ∀ s : CountState, s.in_tag = true →
    (∀ c ∈ ts, c ≠ 60 ∧ c ≠ 62) →
    ts.foldl countStep s = { s with current_tag := s.current_tag ++ ts } := by
  induction ts with
  | nil => intro s _ _; simp
  | cons c ts ih =>
    intro s hs hall
    have hc := hall c (List.mem_cons_self c ts)
    have hrest : ∀ x ∈ ts, x ≠ 60 ∧ x ≠ 62 :=
      fun x hx => hall x (List.mem_cons_of_mem c hx)
    rw [List.foldl_cons]
    have hstep : countStep s c = { s with current_tag := s.current_tag ++ [c] } := by
      simp [countStep, hc.1, hc.2, hs]
    rw [hstep, ih { s with current_tag := s.current_tag ++ [c] } hs hrest]
    simp

/-- Running one good atom from an outside-tag, last-was-space state emits
nothing and restores that state. -/
lemma goodAtom_foldl (a : List Nat) (hg : goodAtom a) :
    ∀ s : CountState, s.in_tag = false → s.last_space = true →
    (a.foldl countStep s).length = s.length
    ∧ (a.foldl countStep s).in_tag = false
    ∧ (a.foldl countStep s).last_space = true := by
  intro s h1 h2
  rcases hg with h | h | h | ⟨ts, ha, hts, hblock⟩
  · subst h; simp [countStep, h1, h2]
  · subst h; simp [countStep, h1, h2]
  · subst h; simp [countStep, h1, h2]
  · subst ha
    simp only [List.foldl_append, List.foldl_cons, List.foldl_nil]
    have h60 : countStep s 60 = { s with in_tag := true, current_tag := [] } := by
      simp [countStep]
    rw [h60, foldl_tagBody ts _ rfl hts]
    simp [countStep, hblock, h2]

/-- Concatenating good atoms emits nothing from the initial state. -/
lemma goodAtoms_foldl (atoms : List (List Nat)) :
    (∀ a ∈ atoms, goodAtom a) → ∀ s : CountState, s.in_tag = false → s.last_space = true →
    (atoms.flatten.foldl countStep s).length = s.length
    ∧ (atoms.flatten.foldl countStep s).in_tag = false
    ∧ (atoms.flatten.foldl countStep s).last_space = true := by
  induction atoms with
  | nil => exact fun _ s h1 h2 => ⟨rfl, h1, h2⟩
  | cons a atoms ih =>
    intro hall s h1 h2
    rw [List.flatten_cons, List.foldl_append]
    have ha := goodAtom_foldl a (hall a (List.mem_cons_self a atoms)) s h1 h2
    have hrec := ih (fun x hx => hall x (List.mem_cons_of_mem a hx)) _ ha.2.1 ha.2.2
    exact ⟨hrec.1.trans ha.1, hrec.2.1, hrec.2.2⟩

/-- C4 amended: every input consisting only of space bytes, newline and
carriage-return bytes, and block-boundary tags counts at most 1 (in fact
0); literal tab bytes are excluded because the scanner does not normalize
them. -/
theorem c4_whitespace_collapse (atoms : List (List Nat))
    (h : ∀ a ∈ atoms, goodAtom a) :
    count_chapter_length atoms.flatten ≤ 1 := by
  have hinv := goodAtoms_foldl atoms h initCount rfl rfl
  unfold count_chapter_length
  rw [hinv.1]
  exact Nat.zero_le 1

/-- C4 witness: spaces, newlines, a `<p>`, a carriage return and a `</h1>`
collapse to at most one unit. -/
theorem c4_whitespace_collapse_witness :
    count_chapter_length
      ([[32], [10], [60, 112, 62], [13], [60, 47, 104, 49, 62]] : List (List Nat)).flatten ≤ 1 :=
  c4_whitespace_collapse _ (by
    intro a ha
    simp only [List.mem_cons, List.not_mem_nil, or_false] at ha
    rcases ha with rfl | rfl | rfl | rfl | rfl
    · exact Or.inl rfl
    · exact Or.inr (Or.inl rfl)
    · exact Or.inr (Or.inr (Or.inr ⟨[112], rfl, by decide, by decide⟩))
    · exact Or.inr (Or.inr (Or.inl rfl))
    · exact Or.inr (Or.inr (Or.inr ⟨[47, 104, 49], rfl, by decide, by decide⟩)))

/-! ## Claim C1: shape of the chapter-offset table -/

/-- The loop appends exactly one offset per resolved spine entry. -/
lemma metricsLoop_fst_length (read : String → Option (List Nat)) :
    ∀ (ps : List String) (cum : Nat), ((metricsLoop read cum ps).1).length = ps.length := by
  intro ps
  induction ps with
  | nil => intro cum; rfl
  | cons p ps ih =>
    intro cum
    cases h : read p <;> simp [metricsLoop, h, ih]

/-- The appended offsets form a non-decreasing chain above the entry
cumulative value. -/
lemma metricsLoop_chain (read : String → Option (List Nat)) :
    ∀ (ps : List String) (cum : Nat),
    List.Chain (· ≤ ·) cum (metricsLoop read cum ps).1 := by
  intro ps
  induction ps with
  | nil => intro cum; exact List.Chain.nil
  | cons p ps ih =>
    intro cum
    cases h : read p with
    | none =>
      simp only [metricsLoop, h]
      exact List.Chain.cons (le_refl cum) (ih cum)
    | some content =>
      simp only [metricsLoop, h]
      exact List.Chain.cons (Nat.le_add_right cum _) (ih _)

/-- The final cumulative value dominates the entry cumulative value. -/
lemma metricsLoop_le_final (read : String → Option (List Nat)) :
    ∀ (ps : List String) (cum : Nat), cum ≤ (metricsLoop read cum ps).2 := by
  intro ps
  induction ps with
  | nil => intro cum; exact le_refl cum
  | cons p ps ih =>
    intro cum
    cases h : read p with
    | none => simp only [metricsLoop, h]; exact ih cum
    | some content =>
      simp only [metricsLoop, h]
      exact le_trans (Nat.le_add_right _ _) (ih _)

/-- Every appended offset is at most the final cumulative value. -/
lemma metricsLoop_mem_le (read : String → Option (List Nat)) :
    ∀ (ps : List String) (cum o : Nat),
    o ∈ (metricsLoop read cum ps).1 → o ≤ (metricsLoop read cum ps).2 := by
  intro ps
  induction ps with
  | nil => intro cum o ho; simp [metricsLoop] at ho
  | cons p ps ih =>
    intro cum o ho
    cases h : read p with
    | none =>
      simp only [metricsLoop, h] at ho ⊢
      rcases List.mem_cons.mp ho with rfl | hmem
      · exact metricsLoop_le_final read ps o
      · exact ih cum o hmem
    | some content =>
      simp only [metricsLoop, h] at ho ⊢
      rcases List.mem_cons.mp ho with rfl | hmem
      · exact metricsLoop_le_final read ps _
      · exact ih _ o hmem

/-- The last element of the table (entry value included) is the final
cumulative value. -/
lemma metricsLoop_getLast (read : String → Option (List Nat)) :
    ∀ (ps : List String) (cum : Nat),
    (cum :: (metricsLoop read cum ps).1).getLast? = some ((metricsLoop read cum ps).2) := by
  intro ps
  induction ps with
  | nil => intro cum; rfl
  | cons p ps ih =>
    intro cum
    cases h : read p with
    | none =>
      simp only [metricsLoop, h]
      rw [List.getLast?_cons_cons]
      exact ih cum
    | some content =>
      simp only [metricsLoop, h]
      rw [List.getLast?_cons_cons]
      exact ih _

/-- The table has one entry per resolved path plus the initial `0`. -/
lemma chapter_offsets_length (read : String → Option (List Nat)) (paths : List String) :
    (chapter_offsets read paths).length = paths.length + 1 := by
  unfold chapter_offsets
  rw [List.length_cons, metricsLoop_fst_length]

/-- A spine idref contributes exactly when it has a manifest entry. -/
lemma resolvedSpine_length (manifest : String → Option String) (opf_dir : String) :
    ∀ spine_refs : List String,
    (resolvedSpine manifest opf_dir spine_refs).length
      = (spine_refs.filter (fun r => (manifest r).isSome)).length := by
  intro s
  induction s with
  | nil => rfl
  | cons r s ih =>
    simp only [resolvedSpine, List.filterMap_cons, List.filter_cons] at *
    cases h : manifest r <;> simp [h, ih]

/-- C1: for every book, the chapter-offset table has length exactly the
number of resolved spine entries (idrefs with a manifest entry) plus 1,
starts at 0 and is non-decreasing; and the concrete scenario with counted
chapter lengths 100, missing, 50 yields `[0, 100, 100, 150]`, total 150
and 4 entries (the missing chapter appends the previous cumulative value
unchanged). -/
theorem c1_chapter_offset_table :
    (∀ (read : String → Option (List Nat)) (manifest : String → Option String)
       (opf_dir : String) (spine_refs : List String),
      (chapter_offsets read (resolvedSpine manifest opf_dir spine_refs)).length
        = (spine_refs.filter (fun r => (manifest r).isSome)).length + 1
      ∧ (chapter_offsets read (resolvedSpine manifest opf_dir spine_refs)).head? = some 0
      ∧ List.Chain' (· ≤ ·) (chapter_offsets read (resolvedSpine manifest opf_dir spine_refs)))
    ∧ chapter_offsets c1read ["ch1", "ch2", "ch3"] = [0, 100, 100, 150]
    ∧ cumulative_length c1read ["ch1", "ch2", "ch3"] = 150
    ∧ (chapter_offsets c1read ["ch1", "ch2", "ch3"]).length = 4 := by
  refine ⟨fun read manifest opf_dir spine_refs => ⟨?_, rfl, ?_⟩, by decide, by decide, by decide⟩
  · rw [chapter_offsets_length, resolvedSpine_length]
  · exact metricsLoop_chain read _ 0

/-! ## Claim C5: the metrics wire format -/

/-- The encoder `le32` really is the 4-byte little-endian encoding: the decoder reads
back exactly the encoded value below `2^32`. -/
lemma readLE32_le32 (n : Nat) (h : n < 4294967296) (rest : List Nat) :
    readLE32 (le32 n ++ rest) = some (n, rest) := by
  simp only [le32, List.cons_append, List.nil_append, readLE32]
  have : n % 256 + 256 * (n / 256 % 256) + 65536 * (n / 65536 % 256)
      + 16777216 * (n / 16777216 % 256) = n := by omega
  rw [this]

/-- Each packed offset occupies exactly 4 bytes. -/
lemma flatten_map_le32_length (offs : List Nat) :
    ((offs.map le32).flatten).length = 4 * offs.length := by
  induction offs with
  | nil => rfl
  | cons o os ih =>
    simp only [List.map_cons, List.flatten_cons, List.length_append, ih, le32,
      List.length_cons, List.length_nil]
    omega

/-- Reading back a packed offset list recovers it. -/
lemma readN32_flatten (offs : List Nat) (rest : List Nat)
    (h : ∀ o ∈ offs, o < 4294967296) :
    readN32 offs.length ((offs.map le32).flatten ++ rest) = some (offs, rest) := by
  induction offs with
  | nil => rfl
  | cons o os ih =>
    simp only [List.map_cons, List.flatten_cons, List.length_cons, List.append_assoc]
    simp only [readN32, readLE32_le32 o (h o (List.mem_cons_self o os)),
      ih (fun x hx => h x (List.mem_cons_of_mem o hx))]

/-- Every table entry is below `2^32` when the total is. -/
lemma chapter_offsets_lt (read : String → Option (List Nat)) (paths : List String)
    (h : cumulative_length read paths < 4294967296) :
    ∀ o ∈ chapter_offsets read paths, o < 4294967296 := by
  intro o ho
  rcases List.mem_cons.mp ho with rfl | hmem
  · omega
  · exact lt_of_le_of_lt (metricsLoop_mem_le read paths 0 o hmem) h

/-- C5: the persisted metrics file parses back, per the spec layout, as the
version byte 1, the 4-byte little-endian total equal to the final
cumulative offset, the 4-byte little-endian entry count equal to the
number of resolved spine entries plus 1, and exactly that many 4-byte
little-endian cumulative offsets in table order with nothing after them;
its byte length is `1 + 4 + 4 + 4 * entry_count`. -/
theorem c5_metrics_wire_format (read : String → Option (List Nat))
    (manifest : String → Option String) (opf_dir : String) (spine_refs : List String)
    (h1 : cumulative_length read (resolvedSpine manifest opf_dir spine_refs) < 4294967296)
    (h2 : (resolvedSpine manifest opf_dir spine_refs).length + 1 < 4294967296) :
    parseMetrics (metricsFile read (resolvedSpine manifest opf_dir spine_refs))
      = some (cumulative_length read (resolvedSpine manifest opf_dir spine_refs),
          (resolvedSpine manifest opf_dir spine_refs).length + 1,
          chapter_offsets read (resolvedSpine manifest opf_dir spine_refs))
    ∧ (metricsFile read (resolvedSpine manifest opf_dir spine_refs)).length
        = 1 + 4 + 4 + 4 * ((resolvedSpine manifest opf_dir spine_refs).length + 1)
    ∧ (chapter_offsets read (resolvedSpine manifest opf_dir spine_refs)).getLast?
        = some (cumulative_length read (resolvedSpine manifest opf_dir spine_refs)) := by
  set paths := resolvedSpine manifest opf_dir spine_refs with hp
  refine ⟨?_, ?_, metricsLoop_getLast read paths 0⟩
  · have hcnt : (chapter_offsets read paths).length = paths.length + 1 :=
      chapter_offsets_length read paths
    have e3 : readN32 (chapter_offsets read paths).length
        (((chapter_offsets read paths).map le32).flatten)
        = some (chapter_offsets read paths, []) := by
      have h := readN32_flatten (chapter_offsets read paths) []
        (chapter_offsets_lt read paths h1)
      rwa [List.append_nil] at h
    rw [hcnt] at e3
    unfold metricsFile
    simp [parseMetrics, List.append_assoc, readLE32_le32 _ h1, hcnt,
      readLE32_le32 _ h2, e3]
  · simp only [metricsFile, List.length_cons, List.length_append, le32,
      flatten_map_le32_length, chapter_offsets_length, List.length_nil]
    omega

/-- C5 witness: the format theorem evaluated on the three-chapter scenario
book. -/
theorem c5_metrics_wire_format_witness :
    parseMetrics (metricsFile c1read (resolvedSpine c1manifest "" ["id1", "id2", "id3"]))
      = some (cumulative_length c1read (resolvedSpine c1manifest "" ["id1", "id2", "id3"]),
          (resolvedSpine c1manifest "" ["id1", "id2", "id3"]).length + 1,
          chapter_offsets c1read (resolvedSpine c1manifest "" ["id1", "id2", "id3"]))
    ∧ (metricsFile c1read (resolvedSpine c1manifest "" ["id1", "id2", "id3"])).length
        = 1 + 4 + 4 + 4 * ((resolvedSpine c1manifest "" ["id1", "id2", "id3"]).length + 1)
    ∧ (chapter_offsets c1read (resolvedSpine c1manifest "" ["id1", "id2", "id3"])).getLast?
        = some (cumulative_length c1read (resolvedSpine c1manifest "" ["id1", "id2", "id3"])) :=
  c5_metrics_wire_format c1read c1manifest "" ["id1", "id2", "id3"] (by decide) (by decide)

/-! ## Claim C6: idempotent metrics generation -/

/-- With the metrics file already present, `generate_metrics` returns
success immediately: the store is untouched and the archive not opened. -/
lemma generate_metrics_skip (fs : String → Option (List Nat)) (mp : String)
    (a : Option ArchiveM) (h : (fs mp).isSome = true) :
    generate_metrics fs mp a = { success := true, fs := fs, opened := false } := by
  unfold generate_metrics
  rw [if_pos h]

/-- After any successful `generate_metrics`, the metrics file exists. -/
lemma generate_metrics_success_exists (fs : String → Option (List Nat)) (mp : String)
    (a : Option ArchiveM) (h : (generate_metrics fs mp a).success = true) :
    ((generate_metrics fs mp a).fs mp).isSome = true := by
  unfold generate_metrics at h ⊢
  by_cases hex : (fs mp).isSome = true
  · rw [if_pos hex]
    exact hex
  · rw [if_neg hex] at h ⊢
    cases a with
    | none => simp at h
    | some arch => simp [fsWrite]

/-- C6: an existing metrics file short-circuits `generate_metrics` to
success with nothing written and the archive untouched; hence a second run
after any successful run is such a no-op, leaving the metrics bytes
identical. -/
theorem c6_metrics_idempotent (fs : String → Option (List Nat)) (mp : String)
    (a1 a2 : Option ArchiveM) :
    ((fs mp).isSome = true →
      generate_metrics fs mp a1 = { success := true, fs := fs, opened := false })
    ∧ ((generate_metrics fs mp a1).success = true →
      generate_metrics (generate_metrics fs mp a1).fs mp a2
        = { success := true, fs := (generate_metrics fs mp a1).fs, opened := false }) := by
  refine ⟨generate_metrics_skip fs mp a1, fun h => ?_⟩
  exact generate_metrics_skip _ mp a2 (generate_metrics_success_exists fs mp a1 h)

/-- C6 witness: a first run that writes the metrics for a one-chapter book,
followed by a second run that is a no-op success without opening the
archive. -/
theorem c6_metrics_idempotent_witness :
    generate_metrics
        (generate_metrics (fun _ => none) "m_b.bin" (some ⟨c1read, c1manifest, "", ["id1"]⟩)).fs
        "m_b.bin" none
      = { success := true
          fs := (generate_metrics (fun _ => none) "m_b.bin"
            (some ⟨c1read, c1manifest, "", ["id1"]⟩)).fs
          opened := false } :=
  (c6_metrics_idempotent (fun _ => none) "m_b.bin"
    (some ⟨c1read, c1manifest, "", ["id1"]⟩) none).2 rfl

/-! ## Claim C7: write-to-temporary-then-replace atomicity -/

/-- A path never equals itself with `".tmp"` appended. -/
lemma path_ne_tmp (path : String) : path ++ ".tmp" ≠ path := by
  intro h
  have hlen := congrArg String.length h
  rw [String.length_append] at hlen
  have h4 : (".tmp" : String).length = 4 := rfl
  omega

/-- C7: after `process_epub` the temporary file is always gone; when the
archive cannot be opened or the rewrite raises, every file other than the
temporary — in particular the original archive — is byte-identical; only a
fully successful rewrite replaces the original. -/
theorem c7_atomic_replace (fs : String → Option (List ZEntry)) (path : String)
    (rewriteF : List ZEntry → Option (List ZEntry)) :
    (process_epub fs path rewriteF (path ++ ".tmp") = none)
    ∧ (fs path = none →
        ∀ q, q ≠ path ++ ".tmp" → process_epub fs path rewriteF q = fs q)
    ∧ (∀ entries, fs path = some entries → rewriteF entries = none →
        ∀ q, q ≠ path ++ ".tmp" → process_epub fs path rewriteF q = fs q)
    ∧ (∀ entries out, fs path = some entries → rewriteF entries = some out →
        process_epub fs path rewriteF path = some out) := by
  refine ⟨?_, ?_, ?_, ?_⟩
  · cases hfs : fs path with
    | none => simp [process_epub, hfs, fsErase]
    | some entries =>
      cases hrw : rewriteF entries with
      | none => simp [process_epub, hfs, hrw, fsErase]
      | some out =>
        simp [process_epub, hfs, hrw, fsWrite, fsErase, path_ne_tmp path]
  · intro h q hq
    simp [process_epub, h, fsErase, hq]
  · intro entries h hrw q hq
    simp [process_epub, h, hrw, fsErase, hq]
  · intro entries out h hrw
    simp [process_epub, h, hrw, fsWrite]

/-- C7 witness: a failing rewrite on the empty archive leaves the original
untouched. -/
theorem c7_atomic_replace_witness :
    process_epub emptyZipFs "b.epub" (fun _ => none) "b.epub" = emptyZipFs "b.epub" :=
  (c7_atomic_replace emptyZipFs "b.epub" (fun _ => none)).2.2.1 [] rfl rfl "b.epub" (by decide)

/-! ## Claim C8: archive round-trip invariants -/

/-- C8 counterexample: a successful run on an archive with no entries
produces an archive with no `mimetype` entry — nothing inserts one, so the
invariant fails on an input archive that lacks it. -/
theorem c8_no_mimetype_on_empty_archive :
    process_epub emptyZipFs "b.epub"
        (fun es => some (processEntries Mode.downscale (fun bs => bs) es)) "b.epub"
      = some []
    ∧ ¬ ∃ e ∈ ([] : List ZEntry), e.filename = "mimetype" :=
  ⟨by decide, by simp⟩

/-- Pruning never fabricates image content. -/
lemma pruneOpf_image (pruneF : List Nat → List Nat) (c : EContent) (w h : Nat)
    (hp : pruneOpf pruneF c = EContent.image w h) : c = EContent.image w h := by
  cases c with
  | raw bs => simp [pruneOpf] at hp
  | image a b => simpa [pruneOpf] using hp

/-- The downscale step either produces an image within 960×540 or leaves
the input image unchanged — and then that image is a fixed point of the
step (the caught-exception cases: zero input dimension, or a target
dimension truncating to zero). -/
lemma downscaleContent_bound_or_fix (w0 h0 w h : Nat)
    (heq : downscaleContent (EContent.image w0 h0) = EContent.image w h) :
    (w ≤ 960 ∧ h ≤ 540)
    ∨ (w0 = w ∧ h0 = h
        ∧ downscaleContent (EContent.image w h) = EContent.image w h) := by
  simp only [downscaleContent] at heq
  by_cases hover : 960 < w0 ∨ 540 < h0
  · rw [if_pos hover] at heq
    by_cases hzero : w0 = 0 ∨ h0 = 0
    · rw [if_pos hzero] at heq
      simp only [EContent.image.injEq] at heq
      obtain ⟨h1, h2⟩ := heq
      subst h1
      subst h2
      refine Or.inr ⟨rfl, rfl, ?_⟩
      simp only [downscaleContent]
      rw [if_pos hover, if_pos hzero]
    · rw [if_neg hzero] at heq
      by_cases htz : Int.toNat ⌊(w0 : ℚ) * min ((960 : ℚ) / w0) ((540 : ℚ) / h0)⌋ = 0
          ∨ Int.toNat ⌊(h0 : ℚ) * min ((960 : ℚ) / w0) ((540 : ℚ) / h0)⌋ = 0
      · rw [if_pos htz] at heq
        simp only [EContent.image.injEq] at heq
        obtain ⟨h1, h2⟩ := heq
        subst h1
        subst h2
        refine Or.inr ⟨rfl, rfl, ?_⟩
        simp only [downscaleContent]
        rw [if_pos hover, if_neg hzero, if_pos htz]
      · rw [if_neg htz] at heq
        simp only [EContent.image.injEq] at heq
        obtain ⟨h1, h2⟩ := heq
        subst h1
        subst h2
        left
        have hw0 : 0 < w0 := by omega
        have hh0 : 0 < h0 := by omega
        have hwq : (0 : ℚ) < (w0 : ℚ) := by exact_mod_cast hw0
        have hhq : (0 : ℚ) < (h0 : ℚ) := by exact_mod_cast hh0
        constructor
        · have hle : (w0 : ℚ) * min ((960 : ℚ) / w0) ((540 : ℚ) / h0) ≤ 960 := by
            calc (w0 : ℚ) * min ((960 : ℚ) / w0) ((540 : ℚ) / h0)
                ≤ (w0 : ℚ) * ((960 : ℚ) / w0) :=
                  mul_le_mul_of_nonneg_left (min_le_left _ _) (le_of_lt hwq)
              _ = 960 := by field_simp
          have hfl : ⌊(w0 : ℚ) * min ((960 : ℚ) / w0) ((540 : ℚ) / h0)⌋ ≤ (960 : ℤ) := by
            have h3 := Int.floor_le_floor hle
            simpa using h3
          exact Int.toNat_le.mpr hfl
        · have hle : (h0 : ℚ) * min ((960 : ℚ) / w0) ((540 : ℚ) / h0) ≤ 540 := by
            calc (h0 : ℚ) * min ((960 : ℚ) / w0) ((540 : ℚ) / h0)
                ≤ (h0 : ℚ) * ((540 : ℚ) / h0) :=
                  mul_le_mul_of_nonneg_left (min_le_right _ _) (le_of_lt hhq)
              _ = 540 := by field_simp
          have hfl : ⌊(h0 : ℚ) * min ((960 : ℚ) / w0) ((540 : ℚ) / h0)⌋ ≤ (540 : ℤ) := by
            have h3 := Int.floor_le_floor hle
            simpa using h3
          exact Int.toNat_le.mpr hfl
  · rw [if_neg hover] at heq
    simp only [EContent.image.injEq] at heq
    obtain ⟨h1, h2⟩ := heq
    subst h1
    subst h2
    push_neg at hover
    left
    omega

/-- C8 amended: after a successful run on an archive, provided the input
contains a `mimetype` entry it is still present and stored while every
other entry keeps the compression method of an input entry with its name
(`writestr` with a `ZipInfo` preserves its `compress_type`); no
font-extension entry remains; under mode=remove no image-extension entry
remains; under mode=downscale every remaining decodable image either has
dimensions at most 960×540 or is an input image the per-image `try` kept
unchanged because the step raised (zero input dimension, or a target
dimension truncating to zero). -/
theorem c8_archive_invariants (fs : String → Option (List ZEntry)) (path : String)
    (mode : Mode) (pruneF : List Nat → List Nat) (entries : List ZEntry)
    (hfs : fs path = some entries) :
    process_epub fs path (fun es => some (processEntries mode pruneF es)) path
      = some (processEntries mode pruneF entries)
    ∧ ((∃ e ∈ entries, e.filename = "mimetype") →
        ∃ e ∈ processEntries mode pruneF entries,
          e.filename = "mimetype" ∧ e.storage = Storage.stored)
    ∧ (∀ e ∈ processEntries mode pruneF entries,
        e.filename ≠ "mimetype" →
        ∃ e0 ∈ entries, e0.filename = e.filename ∧ e.storage = e0.storage)
    ∧ (∀ e ∈ processEntries mode pruneF entries,
        font_exts.contains (extOf e.filename) = false)
    ∧ (mode = Mode.remove → ∀ e ∈ processEntries mode pruneF entries,
        image_exts.contains (extOf e.filename) = false)
    ∧ (mode = Mode.downscale → ∀ e ∈ processEntries mode pruneF entries,
        image_exts.contains (extOf e.filename) = true →
        ∀ w h : Nat, e.content = EContent.image w h →
          (w ≤ 960 ∧ h ≤ 540)
          ∨ (downscaleContent (EContent.image w h) = EContent.image w h
              ∧ ∃ e0 ∈ entries, e0.filename = e.filename
                ∧ e0.content = EContent.image w h)) := by
  refine ⟨?_, ?_, ?_, ?_, ?_, ?_⟩
  · simp [process_epub, hfs, fsWrite]
  · rintro ⟨e, he, hname⟩
    have hext : extOf "mimetype" = "" := by decide
    have hf : ("" : String) ∉ font_exts := by decide
    have hi : ("" : String) ∉ image_exts := by decide
    refine ⟨processEntry mode pruneF e,
      List.mem_map_of_mem _ (List.mem_filter.mpr ⟨he, ?_⟩), ?_, ?_⟩
    · simp [toRemove, hname, hext, hf, hi]
    · simp [processEntry, hname]
    · simp [processEntry, hname]
  · intro e' he' hne
    obtain ⟨e0, h0, rfl⟩ := List.mem_map.mp he'
    have h0mem := (List.mem_filter.mp h0).1
    have hn0 : e0.filename ≠ "mimetype" := by simpa [processEntry] using hne
    exact ⟨e0, h0mem, by simp [processEntry], by simp [processEntry, hn0]⟩
  · intro e' he'
    obtain ⟨e0, h0, rfl⟩ := List.mem_map.mp he'
    have h1 := (List.mem_filter.mp h0).2
    simp only [Bool.not_eq_eq_eq_not, Bool.not_true, toRemove,
      Bool.or_eq_false_iff] at h1
    simpa [processEntry] using h1.1
  · intro hmode e' he'
    obtain ⟨e0, h0, rfl⟩ := List.mem_map.mp he'
    have h1 := (List.mem_filter.mp h0).2
    subst hmode
    simp only [Bool.not_eq_eq_eq_not, Bool.not_true, toRemove,
      Bool.or_eq_false_iff, Bool.and_eq_false_iff] at h1
    have h2 := h1.2
    rcases h2 with h2 | h2
    · simp at h2
    · simpa [processEntry] using h2
  · intro hmode e' he' himg w h hc
    obtain ⟨e0, h0, rfl⟩ := List.mem_map.mp he'
    have h0mem := (List.mem_filter.mp h0).1
    have himg0 : extOf e0.filename ∈ image_exts := by
      simpa [processEntry] using himg
    subst hmode
    have hc1 : downscaleContent e0.content = EContent.image w h := by
      by_cases hopf : endsWithStr ".opf" e0.filename = true
      · have hp : pruneOpf pruneF (downscaleContent e0.content) = EContent.image w h := by
          simpa [processEntry, himg0, hopf] using hc
        exact pruneOpf_image pruneF _ w h hp
      · simpa [processEntry, himg0, hopf] using hc
    cases hcontent : e0.content with
    | raw bs =>
      rw [hcontent] at hc1
      simp [downscaleContent] at hc1
    | image w0 h0w =>
      rw [hcontent] at hc1
      rcases downscaleContent_bound_or_fix w0 h0w w h hc1 with hb | ⟨hw, hh, hfix⟩
      · exact Or.inl hb
      · refine Or.inr ⟨hfix, e0, h0mem, by simp [processEntry], ?_⟩
        rw [hcontent, hw, hh]

/-- C8 witness: the invariants evaluated on a sample archive holding a
stored `mimetype`, a font, an oversized image, a small image, a 1920×1
image whose downscale raises, a stored non-image entry and a chapter. -/
theorem c8_archive_invariants_witness :
    process_epub sampleFs "b.epub"
        (fun es => some (processEntries Mode.downscale (fun bs => bs) es)) "b.epub"
      = some (processEntries Mode.downscale (fun bs => bs) sampleEntries)
    ∧ ((∃ e ∈ sampleEntries, e.filename = "mimetype") →
        ∃ e ∈ processEntries Mode.downscale (fun bs => bs) sampleEntries,
          e.filename = "mimetype" ∧ e.storage = Storage.stored)
    ∧ (∀ e ∈ processEntries Mode.downscale (fun bs => bs) sampleEntries,
        e.filename ≠ "mimetype" →
        ∃ e0 ∈ sampleEntries, e0.filename = e.filename ∧ e.storage = e0.storage)
    ∧ (∀ e ∈ processEntries Mode.downscale (fun bs => bs) sampleEntries,
        font_exts.contains (extOf e.filename) = false)
    ∧ (Mode.downscale = Mode.remove →
        ∀ e ∈ processEntries Mode.downscale (fun bs => bs) sampleEntries,
        image_exts.contains (extOf e.filename) = false)
    ∧ (Mode.downscale = Mode.downscale →
        ∀ e ∈ processEntries Mode.downscale (fun bs => bs) sampleEntries,
        image_exts.contains (extOf e.filename) = true →
        ∀ w h : Nat, e.content = EContent.image w h →
          (w ≤ 960 ∧ h ≤ 540)
          ∨ (downscaleContent (EContent.image w h) = EContent.image w h
              ∧ ∃ e0 ∈ sampleEntries, e0.filename = e.filename
                ∧ e0.content = EContent.image w h)) :=
  c8_archive_invariants sampleFs "b.epub" Mode.downscale (fun bs => bs) sampleEntries rfl

/-! ## Claim C10: a catalog record for every regular file -/

/-- C10: `process_single_epub` returns a record exactly when the path is a
regular file; the archive transform cannot prevent it, and a failed
metrics generation only zeroes the `has_metrics` flag. -/
theorem c10_record_iff_file (isFile : Bool) (fsZ : String → Option (List ZEntry))
    (fsB : String → Option (List Nat)) (path : String)
    (rewriteF : List ZEntry → Option (List ZEntry)) (final_name : String)
    (archive : Option ArchiveM) (title author : Option String) (size : Nat) :
    (isFile = true →
      ∃ r, process_single_epub isFile fsZ fsB path rewriteF final_name archive title author size
          = some r
        ∧ ((generate_metrics fsB ("m_" ++ pathStem final_name ++ ".bin") archive).success = false
            → r.has_metrics = 0))
    ∧ (isFile = false →
      process_single_epub isFile fsZ fsB path rewriteF final_name archive title author size
        = none) := by
  constructor
  · intro h
    subst h
    unfold process_single_epub
    refine ⟨_, rfl, fun hgm => ?_⟩
    simp [hgm]
  · intro h
    subst h
    rfl

/-- C10 witness: a regular file whose metrics generation fails (archive
unparsable) still yields a record, with `has_metrics = 0`. -/
theorem c10_record_iff_file_witness :
    ∃ r, process_single_epub true sampleFs (fun _ => none) "b.epub"
        (fun es => some es) "b.epub" none none none 0 = some r
      ∧ ((generate_metrics (fun _ => none) ("m_" ++ pathStem "b.epub" ++ ".bin") none).success
            = false → r.has_metrics = 0) :=
  (c10_record_iff_file true sampleFs (fun _ => none) "b.epub" (fun es => some es) "b.epub"
    none none none 0).1 rfl

end EpubPrep
